import Mathlib

/-!
Shallow embedding of `pyaugmecon.py` (class `MOOP`): the augmented
epsilon-constraint Pareto-front explorer.  Reals are modelled by `ℚ`;
the external solver is modelled as a deterministic oracle mapping the
epsilon-parameter vector set before a solve to a termination status and
the model's read-back values.  Python's `round(x, d)` is modelled as
round-half-up at `d` decimals (Python's float banker's rounding differs
only at exact half-way points, which no theorem below touches), and
Python's `int()` as truncation toward zero.
-/

/-- Python `round(x, d)` on our rational model: round half up at `d` decimals. -/
def pyRound (d : ℕ) (x : ℚ) : ℚ := ((⌊x * 10 ^ d + 1 / 2⌋ : ℤ) : ℚ) / 10 ^ d

/-- Python `int(x)`: truncation toward zero. -/
def truncQ (x : ℚ) : ℤ := if 0 ≤ x then ⌊x⌋ else ⌈x⌉

/-- Penalty weight `self.eps = 10e-3` (line 132): the Python literal `10e-3` is `0.01`. -/
def epsW : ℚ := 1 / 100

/-- Read-back state of the Pyomo model after a solve: `objs k` is the value
`obj_list[k+1]()` (so `objs 0` is the augmented primary objective) and
`slacks k` is `Slack[k+2].value` (the slack of the `k`-th secondary objective,
0-based). -/
structure ModelVals where
  objs : ℕ → ℚ
  slacks : ℕ → ℚ

/-- Result of one grid-loop solve: termination status (`optimal = true` iff
`TerminationCondition.optimal`) plus the values the model would hold if the
solver loads a solution. -/
structure SolveResult where
  optimal : Bool
  vals : ModelVals

/-- Result of one payoff-table solve (`solve_model` called from
`create_payoff_table`): status and the read-back value of the active
objective. -/
structure PayResult where
  optimal : Bool
  value : ℚ

/-- Payoff-table oracle: `pOracle j pin` is the solve with objective `j+1`
active (1-based `jIn = j+1`), where `pin = some i` adds the auxiliary
equality constraint pinning objective `i+1` to its own diagonal optimum
(`create_payoff_table`, lines 100-104), and `pin = none` is a free solve. -/
def payoffDiag (pOracle : ℕ → Option ℕ → PayResult) (i : ℕ) : ℚ :=
  (pOracle i none).value

/-- Embedding of `create_payoff_table` (lines 74-108): diagonal entries are the raw
read-back optima, off-diagonal entries are read-back values rounded to 10
decimals.  No termination status is inspected anywhere in this routine. -/
def payoffTable (p : ℕ) (pOracle : ℕ → Option ℕ → PayResult) : List (List ℚ) :=
  (List.range p).map (fun i => (List.range p).map (fun j =>
    if i = j then payoffDiag pOracle i else pyRound 10 (pOracle j (some i)).value))

/-- Column `i` of the payoff table, `self.payoff_table[:, i]`. -/
def colList (T : List (List ℚ)) (i : ℕ) : List ℚ := T.map (fun row => row.getD i 0)

/-- Embedding of `np.min` over a nonempty list (0 on the empty list, which never occurs). -/
def listMin : List ℚ → ℚ
  | [] => 0
  | x :: xs => xs.foldl min x

/-- Embedding of `np.max` over a nonempty list (0 on the empty list, which never occurs). -/
def listMax : List ℚ → ℚ
  | [] => 0
  | x :: xs => xs.foldl max x

/-- The chosen minimum for the `k`-th secondary objective (0-based `k = i-1`
for the loop variable `i ∈ [1, p)` in `find_objfun_range`): the nadir value
when `self.nadir_points` is truthy (non-`None` and non-empty), else the
payoff-column minimum (lines 118-122). -/
def minChoice (T : List (List ℚ)) (nadir : Option (List ℚ)) (k : ℕ) : ℚ :=
  match nadir with
  | some ns => if ns = [] then listMin (colList T (k + 1)) else ns.getD k 0
  | none => listMin (colList T (k + 1))

/-- The payoff-derived maximum for the `k`-th secondary objective (line 124). -/
def maxChoice (T : List (List ℚ)) (k : ℕ) : ℚ := listMax (colList T (k + 1))

/-- Embedding of `self.obj_range`: created as an integer numpy array (line 115-116), so the
assignment `self.obj_range[i-1] = self.max - self.min` (line 125) truncates
the range toward zero. -/
def objRanges (p : ℕ) (T : List (List ℚ)) (nadir : Option (List ℚ)) : List ℤ :=
  (List.range (p - 1)).map (fun k => truncQ (maxChoice T k - minChoice T nadir k))

/-- Grid breakpoint `self.e[k, j] = min + j * (obj_range[k] / (g_points - 1))`
(lines 127-129), using the already-truncated integer range. -/
def eEntry (p g : ℕ) (T : List (List ℚ)) (nadir : Option (List ℚ)) (k j : ℕ) : ℚ :=
  minChoice T nadir k + (j : ℚ) * (((objRanges p T nadir).getD k 0 : ℤ) / ((g : ℚ) - 1))

/-- The `(p-1) × g` breakpoint matrix `self.e`. -/
def eMatrix (p g : ℕ) (T : List (List ℚ)) (nadir : Option (List ℚ)) : List (List ℚ) :=
  (List.range (p - 1)).map (fun k => (List.range g).map (eEntry p g T nadir k))

/-- The penalty expression added to the primary objective by
`convert_opt_prob` (lines 148-153): per secondary rank `o ∈ [1, p)` the term
`eps * (10 ** (-(o-1)) * Slack[o+1] / obj_range[o-1])`, written with the
0-based index `i = o - 1`. -/
def augPenalty (p : ℕ) (ranges : List ℤ) (slacks : ℕ → ℚ) : ℚ :=
  ((List.range (p - 1)).map (fun (i : ℕ) =>
    epsW * ((10 : ℚ) ^ (-(i : ℤ)) * slacks i / ((ranges.getD i 0 : ℤ) : ℚ)))).sum

/-- Embedding of `itertools.product` of `k` copies of `range g` in product order (last
component varying fastest), as produced at line 171. -/
def prodTuples (g : ℕ) : ℕ → List (List ℕ)
  | 0 => [[]]
  | k + 1 => (List.range g).flatMap (fun a => (prodTuples g k).map (a :: ·))

/-- Embedding of `self.cp` (lines 169-172): the product tuples with each tuple reversed
(`i[::-1]`), so component 0 ends up varying fastest. -/
def cpList (p g : ℕ) : List (List ℕ) := (prodTuples g (p - 1)).map List.reverse

/-- The epsilon-parameter vector set before a solve (lines 187-188):
`model.e[o+1] = self.e[o-1, c[o-1]]` for `o ∈ [1, p)`. -/
def epsVec (p : ℕ) (e : ℕ → ℕ → ℚ) (c : List ℕ) : List ℚ :=
  (List.range (p - 1)).map (fun i => e i (c.getD i 0))

/-- The CandidateSolution recorded at lines 211-224: head is
`round(obj_list[1]() - eps * Σ_{o1 ∈ Os} Slack[o1] / obj_range[o1-2], 2)` —
note: no `10 ** (-(o-1))` factor, unlike the penalty that was added — and the
tail is `round(obj_list[o+1](), 2)` for `o ∈ [1, p)`. -/
def recTuple (p : ℕ) (ranges : List ℤ) (m : ModelVals) : List ℚ :=
  pyRound 2 (m.objs 0 -
      epsW * ((List.range (p - 1)).map
        (fun i => m.slacks i / ((ranges.getD i 0 : ℤ) : ℚ))).sum)
    :: (List.range (p - 1)).map (fun o => pyRound 2 (m.objs (o + 1)))

/-- Write `self.flag[(c0, i)] = v` for each `i` in `is` (the dict keys are
always pairs, lines 195-196 and 206-207). -/
def writeFlags (f : List ℕ → ℚ) (c0 : ℕ) (is : List ℕ) (v : ℚ) : List ℕ → ℚ :=
  is.foldl (fun f i => Function.update f [c0, i] v) f

/-- The bypass coefficients `b` (lines 199-204): for `i ∈ [0, p-1)`,
`b[i] = int(round(Slack[i+2].value, 10) / (obj_range[i] / (g_points - 1)))`. -/
def bCoeffs (p g : ℕ) (ranges : List ℤ) (m : ModelVals) : List ℤ :=
  (List.range (p - 1)).map (fun i =>
    truncQ (pyRound 10 (m.slacks i) / (((ranges.getD i 0 : ℤ) : ℚ) / ((g : ℚ) - 1))))

/-- Mutable state of `discover_pareto`'s loop.  `flag` is the SkipMap (`self.flag`,
total with default 0, matching `dict.get(c, 0)`), `bypassJump` the running skip
counter, plus the solve counter, the model's current read-back values (stale
after a non-optimal solve), the candidate list `pareto_sols_temp`, and a trace
marking each visited grid index with whether it was solved. -/
structure ExpState where
  flag : List ℕ → ℚ
  bypassJump : ℚ
  modelsSolved : ℕ
  cur : ModelVals
  recorded : List (List ℚ)
  trace : List (List ℕ × Bool)

/-- Parameters fixed for one `discover_pareto` run. -/
structure ExpParams where
  p : ℕ
  g : ℕ
  early : Bool
  bypass : Bool
  ranges : List ℤ
  e : ℕ → ℕ → ℚ
  oracle : List ℚ → SolveResult

/-- Lines 178-181: convert an applicable SkipMap entry into an active skip
count, clamped by `until_end = g_points - c[0]`. -/
def bj1 (g : ℕ) (st : ExpState) (c : List ℕ) : ℚ :=
  if st.flag c ≠ 0 ∧ st.bypassJump = 0 then
    (if st.flag c < (g : ℚ) - (c.headD 0 : ℕ) then st.flag c
     else (g : ℚ) - (c.headD 0 : ℕ))
  else st.bypassJump

/-- Lines 226-229: after the record block, convert a SkipMap entry just set at
`c` itself into an active skip count, clamped by `until_end = g_points - c[0] - 1`. -/
def bj2 (g : ℕ) (f : List ℕ → ℚ) (c : List ℕ) (q : ℚ) : ℚ :=
  if f c ≠ 0 ∧ q = 0 then
    (if f c - 1 < (g : ℚ) - (c.headD 0 : ℕ) - 1 then f c - 1
     else (g : ℚ) - (c.headD 0 : ℕ) - 1)
  else q

/-- Model read-back after the solve at `c`: the new solution when the solver
loaded one (optimal), the stale previous values otherwise. -/
def updCur (p : ℕ) (e : ℕ → ℕ → ℚ) (oracle : List ℚ → SolveResult)
    (cur : ModelVals) (c : List ℕ) : ModelVals :=
  if (oracle (epsVec p e c)).optimal then (oracle (epsVec p e c)).vals else cur

/-- Flag updates of lines 193-207.  `none` models the Python `IndexError` on
`c[1]` (and `b[1]`) when `len(c) < 2`, i.e. when `p = 2`: the early-exit
branch evaluates `range(c[1], g_points)` and the bypass branch
`range(c[1], int(c[1] + b[1] + 1))`. -/
def flagAfter (P : ExpParams) (f : List ℕ → ℚ) (c : List ℕ) (opt : Bool)
    (cur' : ModelVals) : Option (List ℕ → ℚ) :=
  if P.early = true ∧ opt = false then
    (c.get? 1).map (fun c1 =>
      writeFlags f (c.headD 0) (List.range' c1 (P.g - c1))
        ((P.g : ℚ) - (c.headD 0 : ℕ)))
  else if P.bypass = true then
    (c.get? 1).bind (fun c1 =>
      ((bCoeffs P.p P.g P.ranges cur').get? 1).map (fun b1 =>
        writeFlags f (c.headD 0) (List.range' c1 (b1 + 1).toNat)
          (((bCoeffs P.p P.g P.ranges cur').headD 0 : ℤ) + 1)))
  else some f

/-- One iteration of the grid loop of `discover_pareto` (lines 177-231) at
grid index `c`. -/
def expStep (P : ExpParams) (st : ExpState) (c : List ℕ) : Option ExpState :=
  let q := bj1 P.g st c
  if 0 < q then
    some { st with bypassJump := q - 1, trace := st.trace ++ [(c, false)] }
  else
    let cur' := updCur P.p P.e P.oracle st.cur c
    (flagAfter P st.flag c (P.oracle (epsVec P.p P.e c)).optimal cur').map (fun f' =>
      { flag := f', bypassJump := bj2 P.g f' c q,
        modelsSolved := st.modelsSolved + 1, cur := cur',
        recorded := st.recorded ++ [recTuple P.p P.ranges cur'],
        trace := st.trace ++ [(c, true)] })

/-- Run the grid loop over the remaining grid indices. -/
def runFrom (P : ExpParams) (st : ExpState) : List (List ℕ) → Option ExpState
  | [] => some st
  | c :: cs => (expStep P st c).bind (fun st' => runFrom P st' cs)

/-- Initial loop state (lines 168, 173-175): no flags, no active skip, no
solves, the model holding its pre-loop values. -/
def initExpState (m : ModelVals) : ExpState :=
  { flag := fun _ => 0, bypassJump := 0, modelsSolved := 0, cur := m,
    recorded := [], trace := [] }

/-- Embedding of `discover_pareto` (lines 167-231). -/
def discoverPareto (P : ExpParams) (init : ModelVals) : Option ExpState :=
  runFrom P (initExpState init) (cpList P.p P.g)

/-- Embedding of `find_unique_sols` (lines 233-241): deduplicate the candidate list by
exact tuple equality (`list(set(...))`). -/
def findUniqueSols (l : List (List ℚ)) : List (List ℚ) := l.dedup

/-- Solve count of an exploration outcome (0 if the run crashed). -/
def solvesOf (o : Option ExpState) : ℕ := (o.map (fun st => st.modelsSolved)).getD 0

/-- Candidate list of an exploration outcome ([] if the run crashed). -/
def recsOf (o : Option ExpState) : List (List ℚ) := (o.map (fun st => st.recorded)).getD []

/-- Errors a `MOOP` construction can raise: the explicit nadir-length check of
`__init__` (lines 53-55), the `ZeroDivisionError` that Pyomo expression
generation raises in `convert_opt_prob` when a slack term is divided by a
zero `obj_range` entry (lines 150-153), and a Python `IndexError` escaping
the grid loop. -/
inductive MoopError where
  | nadirMismatch : MoopError
  | zeroDivision : MoopError
  | indexError : MoopError
deriving DecidableEq

/-- Construction-time configuration (`moop_options`). -/
structure MoopConfig where
  p : ℕ
  gPoints : ℕ
  nadir : Option (List ℚ)
  early : Bool
  bypass : Bool

/-- Error path of `convert_opt_prob` (lines 131-165): the objective rewrite
builds, for each secondary rank `o`, the term
`eps * (10 ** (-(o-1)) * Slack[o+1] / obj_range[o-1])` (lines 150-153); when
an `obj_range` entry is the constant zero, Pyomo expression generation raises
`ZeroDivisionError`, aborting the run before the grid loop.  The expression
itself lives in the oracle semantics; only the division-by-zero error path is
modelled here. -/
def convertOptProb (p : ℕ) (ranges : List ℤ) : Except MoopError Unit :=
  if (List.range (p - 1)).any (fun i => ranges.getD i 0 == 0) then .error .zeroDivision
  else .ok ()

/-- The `MOOP.__init__` pipeline (lines 49-61): nadir-length check, then
`create_payoff_table`, `find_objfun_range`, `convert_opt_prob` (its objective
rewrite lives in the oracle semantics; its divisions by the truncated
`obj_range` entries raise `ZeroDivisionError` on a zero entry), then
`discover_pareto` and `find_unique_sols`.  Returns the grid-loop solve count
and the deduplicated Pareto set. -/
def moopRun (cfg : MoopConfig) (pOracle : ℕ → Option ℕ → PayResult)
    (gOracle : List ℚ → SolveResult) (init : ModelVals) :
    Except MoopError (ℕ × List (List ℚ)) :=
  if cfg.nadir.isSome ∧ (cfg.nadir.getD []).length ≠ cfg.p - 1 then
    .error .nadirMismatch
  else
    let T := payoffTable cfg.p pOracle
    match convertOptProb cfg.p (objRanges cfg.p T cfg.nadir) with
    | .error e => .error e
    | .ok _ =>
      let P : ExpParams :=
        { p := cfg.p, g := cfg.gPoints, early := cfg.early, bypass := cfg.bypass,
          ranges := objRanges cfg.p T cfg.nadir,
          e := eEntry cfg.p cfg.gPoints T cfg.nadir, oracle := gOracle }
      match discoverPareto P init with
      | none => .error .indexError
      | some st => .ok (st.modelsSolved, findUniqueSols st.recorded)

/-- Candidate tuples recorded by a run that solves every grid index in order
(each record reads the model after the solve: new values when optimal, stale
otherwise). -/
def recAux (p : ℕ) (ranges : List ℤ) (e : ℕ → ℕ → ℚ) (oracle : List ℚ → SolveResult) :
    ModelVals → List (List ℕ) → List (List ℚ)
  | _, [] => []
  | cur, c :: cs =>
    recTuple p ranges (updCur p e oracle cur c) ::
      recAux p ranges e oracle (updCur p e oracle cur c) cs

/-- Final model read-back values after solving every grid index in order. -/
def curAux (p : ℕ) (e : ℕ → ℕ → ℚ) (oracle : List ℚ → SolveResult) :
    ModelVals → List (List ℕ) → ModelVals
  | cur, [] => cur
  | cur, c :: cs => curAux p e oracle (updCur p e oracle cur c) cs

/-- Skip count asserted by the bypass claim at a feasible solve with fastest
coordinate `c0`: `floor(slack_0 / step_0)` for the fastest-varying secondary
objective (grid spacing `step_0 = range_0 / (g-1)`), clamped to the remaining
`g - 1 - c0` indices of the fastest-varying dimension.  It coincides with the
clamp of `b[0] + 1` consumed at lines 226-229. -/
def slackSkips (P : ExpParams) (m : ModelVals) (c0 : ℕ) : ℕ :=
  min (truncQ (pyRound 10 (m.slacks 0) /
    (((P.ranges.getD 0 0 : ℤ) : ℚ) / ((P.g : ℚ) - 1)))).toNat (P.g - 1 - c0)

/-- Grid used by the concrete instances below: breakpoint `j` in every row. -/
def exE : ℕ → ℕ → ℚ := fun _ j => (j : ℚ)

/-- Constant-objective model values with two slack entries. -/
def mvOf (v s0 s1 : ℚ) : ModelVals :=
  ⟨fun _ => v, fun k => if k = 0 then s0 else s1⟩

/-- A deterministic grid-solve oracle on the 2×2 grid with breakpoints 0, 1:
always optimal; the solve at bound vector `[0, 0]` reports slack 1 on the
fastest secondary objective, and each grid point has distinct objective
values. -/
def orcA : List ℚ → SolveResult := fun l =>
  if l = [0, 0] then ⟨true, mvOf 0 1 0⟩
  else if l = [1, 0] then ⟨true, mvOf 10 0 0⟩
  else if l = [0, 1] then ⟨true, mvOf 20 0 0⟩
  else ⟨true, mvOf 30 0 0⟩

/-- Oracle for the bypass-skip witness: optimal everywhere, slack `5/4` on the
fastest secondary objective at bound vector `[0, 0]`. -/
def orcB : List ℚ → SolveResult := fun l =>
  if l = [0, 0] then ⟨true, mvOf 1 (5 / 4) 0⟩ else ⟨true, mvOf 2 0 0⟩

/-- A grid-solve oracle that is always optimal with all slacks zero. -/
def gOrcOpt : List ℚ → SolveResult := fun _ => ⟨true, mvOf 1 0 0⟩

/-- A grid-solve oracle that never reaches an optimum. -/
def gOrcInf : List ℚ → SolveResult := fun _ => ⟨false, mvOf 1 0 0⟩

/-- A payoff oracle whose every solve reads back the same value 5, so every
secondary objective range is zero. -/
def pOrcConst : ℕ → Option ℕ → PayResult := fun _ _ => ⟨true, 5⟩

/-- A payoff oracle whose first diagonal solve terminates non-optimally while
reading back 42; the secondary payoff column is `[7, 9]`, so its range is the
nonzero 2 and the pipeline reaches the grid loop. -/
def pOrcC7 : ℕ → Option ℕ → PayResult := fun j pin =>
  match pin with
  | none => if j = 0 then ⟨false, 42⟩ else ⟨true, 9⟩
  | some _ => ⟨true, 7⟩

/-- Two payoff oracles with identical read-back values but opposite
termination statuses everywhere. -/
def pOrcW1 : ℕ → Option ℕ → PayResult := fun _ _ => ⟨false, 3⟩

/-- Companion of `pOrcW1` with the opposite status. -/
def pOrcW2 : ℕ → Option ℕ → PayResult := fun _ _ => ⟨true, 3⟩

/-- Model read-back values realizing the recording bug: augmented primary
value `0.0069`, secondary objective values 5 and 7, slacks `(0, 0.9)` with
both objective ranges 1. -/
def mvC2 : ModelVals :=
  ⟨fun k => if k = 0 then 69 / 10000 else if k = 1 then 5 else 7,
   fun k => if k = 0 then 0 else if k = 1 then 9 / 10 else 0⟩

/-- A payoff table whose secondary column has the fractional range `1/2`. -/
def payoffC5 : List (List ℚ) := [[0, 0], [1 / 2, 1 / 2]]

/-! ### Structural lemmas about the grid enumeration -/

theorem flatMapCongrLeft {α β : Type} (l : List α) (f₁ f₂ : α → List β)
    (h : ∀ a ∈ l, f₁ a = f₂ a) : l.flatMap f₁ = l.flatMap f₂ := by
  induction l with
  | nil => rfl
  | cons a l ih =>
    simp only [List.flatMap_cons]
    rw [h a (by simp), ih (fun x hx => h x (by simp [hx]))]

theorem range_mul_flatMap (a b : ℕ) :
    List.range (a * b) =
      (List.range a).flatMap (fun i => (List.range b).map (fun j => i * b + j)) := by
  induction a with
  | zero => simp
  | succ a ih =>
    rw [Nat.succ_mul, List.range_add, List.range_succ, List.flatMap_append, ← ih]
    simp

theorem topDigit (g k i j : ℕ) (hi : i < g) (hj : j < g ^ k) :
    (i * g ^ k + j) / g ^ k % g = i := by
  have hg : 0 < g := by omega
  have hpow : 0 < g ^ k := Nat.pos_pow_of_pos k hg
  rw [Nat.add_comm, Nat.add_mul_div_right _ _ hpow, Nat.div_eq_of_lt hj]
  simp [Nat.mod_eq_of_lt hi]

theorem lowDigit (g k t i j : ℕ) (ht : t < k) (hi : i < g) :
    (i * g ^ k + j) / g ^ t % g = j / g ^ t % g := by
  have hg : 0 < g := by omega
  have hpow : 0 < g ^ t := Nat.pos_pow_of_pos t hg
  have hk : i * g ^ k = (i * g ^ (k - t)) * g ^ t := by
    rw [Nat.mul_assoc, ← pow_add]
    congr 2
    omega
  rw [Nat.add_comm, hk, Nat.add_mul_div_right _ _ hpow]
  have hsplit : i * g ^ (k - t) = (i * g ^ (k - t - 1)) * g := by
    rw [Nat.mul_assoc, ← pow_succ]
    congr 2
    omega
  rw [hsplit, Nat.add_mul_mod_self_right]

theorem prodTuples_digits (g : ℕ) : ∀ k, prodTuples g k =
    (List.range (g ^ k)).map
      (fun n => ((List.range k).map (fun t => n / g ^ t % g)).reverse) := by
  intro k
  induction k with
  | zero => simp [prodTuples]
  | succ k ih =>
    rw [prodTuples, ih, pow_succ', range_mul_flatMap, List.map_flatMap]
    refine flatMapCongrLeft _ _ _ (fun a ha => ?_)
    rw [List.mem_range] at ha
    rw [List.map_map, List.map_map]
    refine List.map_congr_left (fun j hj => ?_)
    rw [List.mem_range] at hj
    simp only [Function.comp_apply]
    rw [List.range_succ, List.map_append, List.reverse_append]
    simp only [List.map_cons, List.map_nil, List.reverse_cons, List.reverse_nil,
      List.nil_append, List.singleton_append]
    rw [topDigit g k a j ha hj]
    congr 1
    refine congrArg _ (List.map_congr_left (fun t ht => ?_))
    rw [List.mem_range] at ht
    exact (lowDigit g k t a j ht ha).symm

/-- The visit order of `discover_pareto`: the `n`-th visited GridIndex is the
little-endian base-`g` representation of `n`, so component 0 varies fastest
and the last component slowest. -/
theorem cpList_digits (p g : ℕ) : cpList p g =
    (List.range (g ^ (p - 1))).map
      (fun n => (List.range (p - 1)).map (fun i => n / g ^ i % g)) := by
  rw [cpList, prodTuples_digits, List.map_map]
  exact List.map_congr_left (fun n _ => by simp [Function.comp])

theorem cpList_length (p g : ℕ) : (cpList p g).length = g ^ (p - 1) := by
  rw [cpList_digits, List.length_map, List.length_range]

theorem mem_cpList_length (p g : ℕ) (c : List ℕ) (hc : c ∈ cpList p g) :
    c.length = p - 1 := by
  rw [cpList_digits] at hc
  obtain ⟨n, -, rfl⟩ := List.mem_map.mp hc
  rw [List.length_map, List.length_range]

/-! ### Small-step lemmas about the explorer -/

theorem runFrom_cons (P : ExpParams) (st : ExpState) (c : List ℕ) (cs : List (List ℕ)) :
    runFrom P st (c :: cs) = (expStep P st c).bind (fun st' => runFrom P st' cs) := rfl

theorem expStep_skip (P : ExpParams) (st : ExpState) (c : List ℕ)
    (h : 0 < bj1 P.g st c) :
    expStep P st c =
      some { st with bypassJump := bj1 P.g st c - 1, trace := st.trace ++ [(c, false)] } := by
  simp [expStep, h]

theorem expStep_solve (P : ExpParams) (st : ExpState) (c : List ℕ)
    (h : ¬ 0 < bj1 P.g st c) :
    expStep P st c =
      (flagAfter P st.flag c (P.oracle (epsVec P.p P.e c)).optimal
          (updCur P.p P.e P.oracle st.cur c)).map (fun f' =>
        { flag := f', bypassJump := bj2 P.g f' c (bj1 P.g st c),
          modelsSolved := st.modelsSolved + 1,
          cur := updCur P.p P.e P.oracle st.cur c,
          recorded := st.recorded ++ [recTuple P.p P.ranges (updCur P.p P.e P.oracle st.cur c)],
          trace := st.trace ++ [(c, true)] }) := by
  simp [expStep, h]

theorem flagAfter_isSome (P : ExpParams) (f : List ℕ → ℚ) (c : List ℕ) (opt : Bool)
    (cur' : ModelVals) (hp : 3 ≤ P.p) (hc : 2 ≤ c.length) :
    (flagAfter P f c opt cur').isSome := by
  have hlen : (bCoeffs P.p P.g P.ranges cur').length = P.p - 1 := by
    rw [bCoeffs, List.length_map, List.length_range]
  unfold flagAfter
  have hx1 : (c.get? 1).isSome = true := by
    rw [List.get?_eq_getElem?, List.getElem?_eq_getElem (by omega)]
    rfl
  have hx2 : ((bCoeffs P.p P.g P.ranges cur').get? 1).isSome = true := by
    rw [List.get?_eq_getElem?, List.getElem?_eq_getElem (by omega : 1 < (bCoeffs P.p P.g P.ranges cur').length)]
    rfl
  obtain ⟨y1, hy1⟩ := Option.isSome_iff_exists.mp hx1
  obtain ⟨y2, hy2⟩ := Option.isSome_iff_exists.mp hx2
  rw [List.get?_eq_getElem?] at hy1 hy2
  split_ifs
  · simp [hy1]
  · simp [hy1, hy2]
  · rfl

theorem runFrom_isSome (P : ExpParams) (hp : 3 ≤ P.p) :
    ∀ (cs : List (List ℕ)) (st : ExpState), (∀ c ∈ cs, 2 ≤ c.length) →
      (runFrom P st cs).isSome := by
  intro cs
  induction cs with
  | nil => intro st _; simp [runFrom]
  | cons c cs ih =>
    intro st h
    rw [runFrom_cons]
    by_cases hq : 0 < bj1 P.g st c
    · rw [expStep_skip P st c hq, Option.some_bind]
      exact ih _ (fun x hx => h x (List.mem_cons_of_mem _ hx))
    · rw [expStep_solve P st c hq]
      obtain ⟨f', hf'⟩ := Option.isSome_iff_exists.mp
        (flagAfter_isSome P st.flag c _ _ hp (h c (List.mem_cons_self c cs)))
      rw [hf']
      simp only [Option.map_some', Option.some_bind]
      exact ih _ (fun x hx => h x (List.mem_cons_of_mem _ hx))

theorem expStep_some_trace (P : ExpParams) (st : ExpState) (c : List ℕ) (st' : ExpState)
    (h : expStep P st c = some st') : ∃ u, st'.trace = st.trace ++ u := by
  by_cases hq : 0 < bj1 P.g st c
  · rw [expStep_skip P st c hq] at h
    injection h with h
    exact ⟨[(c, false)], by rw [← h]⟩
  · rw [expStep_solve P st c hq] at h
    cases hfa : flagAfter P st.flag c (P.oracle (epsVec P.p P.e c)).optimal
        (updCur P.p P.e P.oracle st.cur c) with
    | none => rw [hfa] at h; simp at h
    | some f' =>
      rw [hfa] at h
      simp only [Option.map_some'] at h
      injection h with h
      exact ⟨[(c, true)], by rw [← h]⟩

theorem runFrom_trace_mono (P : ExpParams) :
    ∀ (cs : List (List ℕ)) (st res : ExpState), runFrom P st cs = some res →
      ∃ t, res.trace = st.trace ++ t := by
  intro cs
  induction cs with
  | nil =>
    intro st res h
    rw [runFrom] at h
    injection h with h
    exact ⟨[], by rw [← h, List.append_nil]⟩
  | cons c cs ih =>
    intro st res h
    rw [runFrom_cons] at h
    cases hstep : expStep P st c with
    | none => rw [hstep] at h; simp at h
    | some st1 =>
      rw [hstep] at h
      simp only [Option.some_bind] at h
      obtain ⟨u, hu⟩ := expStep_some_trace P st c st1 hstep
      obtain ⟨t, ht⟩ := ih st1 res h
      exact ⟨u ++ t, by rw [ht, hu, List.append_assoc]⟩

theorem expStep_some_solved (P : ExpParams) (st : ExpState) (c : List ℕ) (st' : ExpState)
    (h : expStep P st c = some st') : st'.modelsSolved ≤ st.modelsSolved + 1 := by
  by_cases hq : 0 < bj1 P.g st c
  · rw [expStep_skip P st c hq] at h
    injection h with h
    rw [← h]
    exact Nat.le_succ _
  · rw [expStep_solve P st c hq] at h
    cases hfa : flagAfter P st.flag c (P.oracle (epsVec P.p P.e c)).optimal
        (updCur P.p P.e P.oracle st.cur c) with
    | none => rw [hfa] at h; simp at h
    | some f' =>
      rw [hfa] at h
      simp only [Option.map_some'] at h
      injection h with h
      rw [← h]

theorem runFrom_solved_le (P : ExpParams) :
    ∀ (cs : List (List ℕ)) (st res : ExpState), runFrom P st cs = some res →
      res.modelsSolved ≤ st.modelsSolved + cs.length := by
  intro cs
  induction cs with
  | nil =>
    intro st res h
    rw [runFrom] at h
    injection h with h
    rw [← h]
    simp
  | cons c cs ih =>
    intro st res h
    rw [runFrom_cons] at h
    cases hstep : expStep P st c with
    | none => rw [hstep] at h; simp at h
    | some st1 =>
      rw [hstep] at h
      simp only [Option.some_bind] at h
      have h1 := expStep_some_solved P st c st1 hstep
      have h2 := ih st1 res h
      simp only [List.length_cons]
      omega


/-- Consuming an active skip count `n`: the next `n` grid indices are marked
unsolved and the run continues with the counter at 0. -/
theorem skipRun (P : ExpParams) :
    ∀ (n : ℕ) (cs : List (List ℕ)) (st : ExpState),
      st.bypassJump = (n : ℚ) → n ≤ cs.length →
      runFrom P st cs =
        runFrom P { st with bypassJump := 0, trace := st.trace ++ (cs.take n).map (fun c => (c, false)) } (cs.drop n) := by
  intro n
  induction n with
  | zero =>
    intro cs st h _
    simp only [List.take_zero, List.map_nil, List.append_nil, List.drop_zero]
    have : { st with bypassJump := (0 : ℚ), trace := st.trace } = st := by
      cases st
      simp_all
    rw [this]
  | succ n ih =>
    intro cs st h hlen
    cases cs with
    | nil => simp at hlen
    | cons c cs =>
      have hne : ((n : ℚ) + 1) ≠ 0 := by positivity
      have hno : ¬(st.flag c ≠ 0 ∧ ((n + 1 : ℕ) : ℚ) = 0) := by
        rintro ⟨-, hcon⟩
        push_cast at hcon
        exact hne hcon
      have hq : bj1 P.g st c = (n : ℚ) + 1 := by
        unfold bj1
        rw [h, if_neg hno]
        push_cast
        ring
      have hpos : 0 < bj1 P.g st c := by
        rw [hq]
        positivity
      rw [runFrom_cons, expStep_skip P st c hpos, Option.some_bind]
      have hcast : bj1 P.g st c - 1 = (n : ℚ) := by
        rw [hq]
        ring
      simp only [List.length_cons] at hlen
      rw [ih cs { st with bypassJump := bj1 P.g st c - 1, trace := st.trace ++ [(c, false)] } hcast (by omega)]
      simp only [List.take_succ_cons, List.drop_succ_cons, List.map_cons]
      congr 1
      simp [List.append_assoc]

/-- With both pruning flags disabled the loop never writes a flag and never
skips: every grid index is solved, in order. -/
theorem runFrom_noflags (P : ExpParams) (hE : P.early = false) (hB : P.bypass = false) :
    ∀ (cs : List (List ℕ)) (st : ExpState),
      (∀ x, st.flag x = 0) → st.bypassJump = 0 →
      runFrom P st cs = some
        { flag := st.flag, bypassJump := 0, modelsSolved := st.modelsSolved + cs.length, cur := curAux P.p P.e P.oracle st.cur cs, recorded := st.recorded ++ recAux P.p P.ranges P.e P.oracle st.cur cs, trace := st.trace ++ cs.map (fun c => (c, true)) } := by
  intro cs
  induction cs with
  | nil =>
    intro st hf hb
    rw [runFrom]
    cases st
    simp_all [recAux, curAux]
  | cons c cs ih =>
    intro st hf hb
    have hq : bj1 P.g st c = 0 := by
      unfold bj1
      rw [hb, if_neg]
      rintro ⟨hcon, -⟩
      exact hcon (hf c)
    rw [runFrom_cons, expStep_solve P st c (by rw [hq]; exact lt_irrefl 0)]
    have hfa : flagAfter P st.flag c (P.oracle (epsVec P.p P.e c)).optimal
        (updCur P.p P.e P.oracle st.cur c) = some st.flag := by
      unfold flagAfter
      rw [hE, hB]
      simp
    rw [hfa]
    simp only [Option.map_some', Option.some_bind]
    have hb2 : bj2 P.g st.flag c (bj1 P.g st c) = 0 := by
      unfold bj2
      rw [hq, if_neg]
      · rintro ⟨hcon, -⟩
        exact hcon (hf c)
    rw [ih { flag := st.flag, bypassJump := bj2 P.g st.flag c (bj1 P.g st c), modelsSolved := st.modelsSolved + 1, cur := updCur P.p P.e P.oracle st.cur c, recorded := st.recorded ++ [recTuple P.p P.ranges (updCur P.p P.e P.oracle st.cur c)], trace := st.trace ++ [(c, true)] } hf hb2]
    simp only [recAux, curAux, List.map_cons, List.length_cons]
    congr 1
    simp [List.append_assoc]
    omega

theorem updCur_opt (p : ℕ) (e : ℕ → ℕ → ℚ) (oracle : List ℚ → SolveResult)
    (cur : ModelVals) (c : List ℕ) (h : (oracle (epsVec p e c)).optimal = true) :
    updCur p e oracle cur c = (oracle (epsVec p e c)).vals := by
  unfold updCur
  rw [h]
  simp

theorem updCur_stale (p : ℕ) (e : ℕ → ℕ → ℚ) (oracle : List ℚ → SolveResult)
    (cur : ModelVals) (c : List ℕ) (h : (oracle (epsVec p e c)).optimal = false) :
    updCur p e oracle cur c = cur := by
  unfold updCur
  rw [h]
  simp

/-- Every optimal grid point's tuple appears in the all-solves record list. -/
theorem mem_recAux_of_opt (p : ℕ) (ranges : List ℤ) (e : ℕ → ℕ → ℚ)
    (oracle : List ℚ → SolveResult) :
    ∀ (cs : List (List ℕ)) (cur : ModelVals) (c : List ℕ), c ∈ cs →
      (oracle (epsVec p e c)).optimal = true →
      recTuple p ranges (oracle (epsVec p e c)).vals ∈ recAux p ranges e oracle cur cs := by
  intro cs
  induction cs with
  | nil => intro cur c hc _; simp at hc
  | cons a cs ih =>
    intro cur c hc hopt
    rcases List.mem_cons.mp hc with rfl | hmem
    · have : updCur p e oracle cur c = (oracle (epsVec p e c)).vals := by
        unfold updCur
        rw [hopt]
        simp
      rw [recAux, this]
      exact List.mem_cons_self _ _
    · exact List.mem_cons_of_mem _ (ih (updCur p e oracle cur a) c hmem hopt)

/-- A non-optimal head solve re-records the tuple of the current (stale)
model values. -/
theorem recAux_stale_head (p : ℕ) (ranges : List ℤ) (e : ℕ → ℕ → ℚ)
    (oracle : List ℚ → SolveResult) (a : List ℕ) (cs : List (List ℕ)) (cur : ModelVals)
    (h : (oracle (epsVec p e a)).optimal = false) :
    recTuple p ranges cur ∈ recAux p ranges e oracle cur (a :: cs) := by
  have : updCur p e oracle cur a = cur := by
    unfold updCur
    rw [h]
    simp
  rw [recAux, this]
  exact List.mem_cons_self _ _

/-- Invariant carried over any (arbitrarily flagged) run: if the tuple of the
current model values and every already-recorded tuple lie in `U`, and every
optimal grid point of the remaining enumeration has its tuple in `U`, then
every tuple the run records lies in `U`. -/
theorem runFrom_recorded_sub (P : ExpParams) (U : List (List ℚ)) :
    ∀ (cs : List (List ℕ)) (st res : ExpState),
      (∀ c ∈ cs, (P.oracle (epsVec P.p P.e c)).optimal = true →
        recTuple P.p P.ranges (P.oracle (epsVec P.p P.e c)).vals ∈ U) →
      recTuple P.p P.ranges st.cur ∈ U →
      (∀ t ∈ st.recorded, t ∈ U) →
      runFrom P st cs = some res →
      ∀ t ∈ res.recorded, t ∈ U := by
  intro cs
  induction cs with
  | nil =>
    intro st res _ _ hrec h
    rw [runFrom] at h
    injection h with h
    rw [← h]
    exact hrec
  | cons c cs ih =>
    intro st res hOpt hcur hrec h
    rw [runFrom_cons] at h
    by_cases hq : 0 < bj1 P.g st c
    · rw [expStep_skip P st c hq] at h
      simp only [Option.some_bind] at h
      exact ih { st with bypassJump := bj1 P.g st c - 1, trace := st.trace ++ [(c, false)] } res (fun x hx => hOpt x (List.mem_cons_of_mem _ hx)) hcur hrec h
    · rw [expStep_solve P st c hq] at h
      cases hfa : flagAfter P st.flag c (P.oracle (epsVec P.p P.e c)).optimal
          (updCur P.p P.e P.oracle st.cur c) with
      | none => rw [hfa] at h; simp at h
      | some f' =>
        rw [hfa] at h
        simp only [Option.map_some', Option.some_bind] at h
        have hnew : recTuple P.p P.ranges (updCur P.p P.e P.oracle st.cur c) ∈ U := by
          by_cases hopt : (P.oracle (epsVec P.p P.e c)).optimal = true
          · rw [updCur_opt P.p P.e P.oracle st.cur c hopt]
            exact hOpt c (List.mem_cons_self _ _) hopt
          · rw [Bool.not_eq_true] at hopt
            rw [updCur_stale P.p P.e P.oracle st.cur c hopt]
            exact hcur
        refine ih { flag := f', bypassJump := bj2 P.g f' c (bj1 P.g st c), modelsSolved := st.modelsSolved + 1, cur := updCur P.p P.e P.oracle st.cur c, recorded := st.recorded ++ [recTuple P.p P.ranges (updCur P.p P.e P.oracle st.cur c)], trace := st.trace ++ [(c, true)] } res (fun x hx => hOpt x (List.mem_cons_of_mem _ hx)) hnew ?_ h
        intro t ht
        rcases List.mem_append.mp ht with h1 | h2
        · exact hrec t h1
        · rw [List.mem_singleton.mp h2]
          exact hnew

theorem getD_range_map {α : Type} (d : α) (f : ℕ → α) (g j : ℕ) (h : j < g) :
    ((List.range g).map f).getD j d = f j := by
  rw [List.getD_eq_getElem?_getD, List.getElem?_map, List.getElem?_range h]
  rfl

/-- The full `MOOP` pipeline with no nadir points, nonzero truncated objective
ranges and both pruning flags disabled always reaches the end of the grid
loop: `g^(p-1)` solves and the deduplicated all-solves candidate list. -/
theorem moopRun_unpruned (cfg : MoopConfig) (pO : ℕ → Option ℕ → PayResult)
    (gO : List ℚ → SolveResult) (init : ModelVals)
    (hN : cfg.nadir = none) (hE : cfg.early = false) (hB : cfg.bypass = false)
    (hz : ∀ i, i < cfg.p - 1 →
      (objRanges cfg.p (payoffTable cfg.p pO) none).getD i 0 ≠ 0) :
    moopRun cfg pO gO init = .ok (cfg.gPoints ^ (cfg.p - 1),
      findUniqueSols (recAux cfg.p (objRanges cfg.p (payoffTable cfg.p pO) cfg.nadir)
        (eEntry cfg.p cfg.gPoints (payoffTable cfg.p pO) cfg.nadir) gO init
        (cpList cfg.p cfg.gPoints))) := by
  have hd := runFrom_noflags
    ⟨cfg.p, cfg.gPoints, cfg.early, cfg.bypass,
      objRanges cfg.p (payoffTable cfg.p pO) none,
      eEntry cfg.p cfg.gPoints (payoffTable cfg.p pO) none, gO⟩ hE hB
    (cpList cfg.p cfg.gPoints) (initExpState init) (fun x => rfl) rfl
  have hc : convertOptProb cfg.p (objRanges cfg.p (payoffTable cfg.p pO) none)
      = .ok () := by
    unfold convertOptProb
    rw [if_neg]
    intro hcontra
    obtain ⟨i, hi, h0⟩ := List.any_eq_true.mp hcontra
    exact hz i (List.mem_range.mp hi) (beq_iff_eq.mp h0)
  unfold moopRun discoverPareto
  rw [hN]
  simp only [Option.isSome_none, Bool.false_eq_true, false_and, if_false]
  rw [hc, hd]
  simp [initExpState, cpList_length]

/-- C4: with both pruning flags (`early_exit`, `bypass_coefficient`) disabled
the grid loop solves every one of the `g^(p-1)` enumerated GridIndex tuples —
none is skipped — and the solve counter equals `g^(p-1)` on termination. -/
theorem spec_C4_unpruned_count (p g : ℕ) (ranges : List ℤ) (e : ℕ → ℕ → ℚ)
    (oracle : List ℚ → SolveResult) (init : ModelVals) :
    (discoverPareto ⟨p, g, false, false, ranges, e, oracle⟩ init).map
        (fun st => st.modelsSolved) = some (g ^ (p - 1)) ∧
    (discoverPareto ⟨p, g, false, false, ranges, e, oracle⟩ init).map
        (fun st => st.trace) = some ((cpList p g).map (fun c => (c, true))) := by
  have h := runFrom_noflags ⟨p, g, false, false, ranges, e, oracle⟩ rfl rfl
    (cpList p g) (initExpState init) (fun x => rfl) rfl
  unfold discoverPareto
  rw [h]
  simp [initExpState, cpList_length]

/-- C6 (amended): the enumeration visits the `g^(p-1)` GridIndex tuples in the
nested order in which component 0 varies fastest and the last component
slowest — the `n`-th visited tuple is the little-endian base-`g`
representation of `n` (component `i` is `n / g^i % g`).  The claim's stated
order (component 0 slowest) is the reverse nesting; see the counterexample. -/
theorem spec_C6_amended_order (p g : ℕ) :
    cpList p g = (List.range (g ^ (p - 1))).map
      (fun n => (List.range (p - 1)).map (fun i => n / g ^ i % g)) :=
  cpList_digits p g

/-- C6 counterexample: for `p = 3`, `g = 2` the first two visited tuples are
`[0,0]` and `[1,0]` — component 0 changes at the very first step, so it is not
the slowest dimension, and the visit order differs from the product order
(`prodTuples`, component 0 slowest) claimed by the spec. -/
theorem spec_C6_cex :
    ((cpList 3 2).getD 0 []).headD 9 = 0 ∧ ((cpList 3 2).getD 1 []).headD 9 = 1 ∧
    cpList 3 2 ≠ prodTuples 2 2 := by decide

/-- C9 (amended): for every `p ≥ 3`, both flag settings and any deterministic
solver oracle, the grid exploration runs to completion over the whole
`g^(p-1)` enumeration — every GridIndex component access is in bounds (no
`IndexError`).  For `p = 2` this fails; see the counterexample. -/
theorem spec_C9_amended_runs (P : ExpParams) (init : ModelVals) (hp : 3 ≤ P.p) :
    (discoverPareto P init).isSome = true := by
  unfold discoverPareto
  exact runFrom_isSome P hp (cpList P.p P.g) (initExpState init)
    (fun c hc => by rw [mem_cpList_length P.p P.g c hc]; omega)

theorem spec_C9_amended_runs_witness :
    3 ≤ (⟨3, 2, true, true, [1, 1], exE, orcA⟩ : ExpParams).p ∧
    (discoverPareto ⟨3, 2, true, true, [1, 1], exE, orcA⟩ (mvOf 99 0 0)).isSome = true :=
  ⟨by decide, spec_C9_amended_runs _ _ (by decide)⟩

/-- C9 counterexample: with `p = 2` objectives and `bypass_coefficient`
enabled, the very first solved grid index reaches `c[1]` (and `b[1]`) inside
the bypass branch, an out-of-bounds access on the length-1 GridIndex: the
exploration does not run to completion. -/
theorem spec_C9_cex_p2_crash :
    (discoverPareto ⟨2, 2, false, true, [1], exE, orcA⟩ (mvOf 99 0 0)).isSome = false := by
  decide

/-- C10: a grid-loop solve that terminates non-optimally still appends a
CandidateSolution for that grid point, computed from the stale model values
held before the solve, for any `early_exit`/`bypass_coefficient` setting
(stated for `p ≥ 3`, where the loop body is free of index errors). -/
theorem spec_C10_infeasible_recorded (P : ExpParams) (st : ExpState) (c : List ℕ)
    (hp : 3 ≤ P.p) (hc : 2 ≤ c.length) (hbj : st.bypassJump = 0) (hfl : st.flag c = 0)
    (hinf : (P.oracle (epsVec P.p P.e c)).optimal = false) :
    (expStep P st c).map (fun st' => (st'.recorded, st'.modelsSolved)) =
      some (st.recorded ++ [recTuple P.p P.ranges st.cur], st.modelsSolved + 1) := by
  have hq : bj1 P.g st c = 0 := by
    unfold bj1
    rw [hbj, if_neg]
    rintro ⟨hcon, -⟩
    exact hcon hfl
  rw [expStep_solve P st c (by rw [hq]; exact lt_irrefl 0)]
  obtain ⟨f', hf'⟩ := Option.isSome_iff_exists.mp (flagAfter_isSome P st.flag c _ _ hp hc)
  rw [hf']
  simp only [Option.map_some']
  rw [updCur_stale P.p P.e P.oracle st.cur c hinf]

theorem spec_C10_infeasible_recorded_witness :
    ((gOrcInf (epsVec 3 exE [0, 0])).optimal = false) ∧
    (expStep ⟨3, 2, true, true, [1, 1], exE, gOrcInf⟩ (initExpState (mvOf 5 0 0)) [0, 0]).map
        (fun st' => (st'.recorded, st'.modelsSolved)) =
      some ((initExpState (mvOf 5 0 0)).recorded ++ [recTuple 3 [1, 1] (mvOf 5 0 0)],
        (initExpState (mvOf 5 0 0)).modelsSolved + 1) :=
  ⟨rfl, spec_C10_infeasible_recorded _ _ _ (by decide) (by decide) rfl rfl rfl⟩

/-- C2 (code bug): at the failing input — `p = 3`, both truncated ranges 1, a
solved grid point whose augmented primary value is `0.0069` with realized
slacks `(0, 0.9)` — the code records `0.00` as the first component
(`recTuple`), while the true unaugmented primary value (augmented value minus
the penalty `augPenalty` that `convert_opt_prob` added) rounds to `0.01`: the
recording step omits the `10^-(rank-1)` weights present in the added penalty. -/
theorem spec_C2_record_vs_penalty :
    (recTuple 3 [1, 1] mvC2).headD 0 = 0 ∧
    pyRound 2 (mvC2.objs 0 - augPenalty 3 [1, 1] mvC2.slacks) = 1 / 100 ∧
    ((0 : ℚ) ≠ 1 / 100) := by
  refine ⟨?_, ?_, by norm_num⟩
  · norm_num [recTuple, mvC2, epsW, pyRound, List.range_succ]
  · norm_num [augPenalty, mvC2, epsW, pyRound, List.range_succ]

/-- C5 counterexample: on a payoff table whose secondary column spans `0` to
`1/2` (range `1/2`, truncated to the integer 0 when stored in `obj_range`),
with `g = 2` the breakpoint row is `[0, 0]`: it is not strictly increasing and
its last column differs from the payoff-derived maximum `1/2`, contradicting
the claimed formula `min + k·((max-min)/(g-1))`. -/
theorem spec_C5_cex :
    maxChoice payoffC5 0 - minChoice payoffC5 none 0 = 1 / 2 ∧
    ((eMatrix 2 2 payoffC5 none).getD 0 []).getD 1 0 = 0 ∧
    ((eMatrix 2 2 payoffC5 none).getD 0 []).getD 0 0
      = ((eMatrix 2 2 payoffC5 none).getD 0 []).getD 1 0 ∧
    ((eMatrix 2 2 payoffC5 none).getD 0 []).getD 1 0 ≠ maxChoice payoffC5 0 := by
  norm_num [eMatrix, eEntry, objRanges, maxChoice, minChoice, colList, listMax, listMin,
    payoffC5, truncQ, List.range_succ, List.getD, max_def, min_def]

/-- C5 (amended): breakpoint `[k, j]` equals
`min_k + j·(truncQ(max_k - min_k)/(g-1))` — the stored range is truncated to an
integer — with column 0 equal to the chosen minimum; when `max_k - min_k` is a
positive integer the row is strictly increasing and its last column equals the
payoff-derived maximum. -/
theorem spec_C5_amended_breakpoints (p g k : ℕ) (T : List (List ℚ))
    (nadir : Option (List ℚ)) (hg : 2 ≤ g) (hk : k < p - 1) (n : ℕ) (hn : 0 < n)
    (hint : maxChoice T k - minChoice T nadir k = (n : ℚ)) :
    (∀ j, j < g → ((eMatrix p g T nadir).getD k []).getD j 0
        = minChoice T nadir k + (j : ℚ) * ((n : ℚ) / ((g : ℚ) - 1))) ∧
    ((eMatrix p g T nadir).getD k []).getD 0 0 = minChoice T nadir k ∧
    (∀ j1 j2, j1 < j2 → j2 < g →
      ((eMatrix p g T nadir).getD k []).getD j1 0
        < ((eMatrix p g T nadir).getD k []).getD j2 0) ∧
    ((eMatrix p g T nadir).getD k []).getD (g - 1) 0 = maxChoice T k := by
  have hgq : (0 : ℚ) < (g : ℚ) - 1 := by
    have h2 : (2 : ℚ) ≤ (g : ℚ) := by exact_mod_cast hg
    linarith
  have hrng : (objRanges p T nadir).getD k 0 = (n : ℤ) := by
    unfold objRanges
    rw [getD_range_map _ _ _ _ hk, hint]
    unfold truncQ
    rw [if_pos (by positivity)]
    exact_mod_cast Int.floor_natCast n
  have hrow : ∀ j, j < g → ((eMatrix p g T nadir).getD k []).getD j 0
      = minChoice T nadir k + (j : ℚ) * ((n : ℚ) / ((g : ℚ) - 1)) := by
    intro j hj
    unfold eMatrix
    rw [getD_range_map _ _ _ _ hk, getD_range_map _ _ _ _ hj]
    unfold eEntry
    rw [hrng]
    norm_num
  have hnq : (0 : ℚ) < (n : ℚ) := by exact_mod_cast hn
  refine ⟨hrow, ?_, ?_, ?_⟩
  · rw [hrow 0 (by omega)]
    norm_num
  · intro j1 j2 h12 h2g
    rw [hrow j1 (by omega), hrow j2 h2g]
    have hj : (j1 : ℚ) < (j2 : ℚ) := by exact_mod_cast h12
    have hstep : (0 : ℚ) < (n : ℚ) / ((g : ℚ) - 1) := by positivity
    have := mul_lt_mul_of_pos_right hj hstep
    linarith
  · rw [hrow (g - 1) (by omega)]
    have hcast : ((g - 1 : ℕ) : ℚ) = (g : ℚ) - 1 := by
      rw [Nat.cast_sub (by omega)]
      norm_num
    have hcancel : ((g : ℚ) - 1) * ((n : ℚ) / ((g : ℚ) - 1)) = (n : ℚ) := by
      field_simp
    rw [hcast, hcancel]
    linarith [hint]

theorem spec_C5_amended_breakpoints_witness :
    ((eMatrix 2 3 [[0, 0], [4, 4]] none).getD 0 []).getD 0 0
      = minChoice [[0, 0], [4, 4]] none 0 ∧
    ((eMatrix 2 3 [[0, 0], [4, 4]] none).getD 0 []).getD 0 0
      < ((eMatrix 2 3 [[0, 0], [4, 4]] none).getD 0 []).getD 1 0 ∧
    ((eMatrix 2 3 [[0, 0], [4, 4]] none).getD 0 []).getD (3 - 1) 0
      = maxChoice [[0, 0], [4, 4]] 0 :=
  ⟨(spec_C5_amended_breakpoints 2 3 0 [[0, 0], [4, 4]] none (by norm_num) (by norm_num) 4
      (by norm_num)
      (by norm_num [maxChoice, minChoice, colList, listMax, listMin, max_def, min_def,
        List.getD])).2.1,
   (spec_C5_amended_breakpoints 2 3 0 [[0, 0], [4, 4]] none (by norm_num) (by norm_num) 4
      (by norm_num)
      (by norm_num [maxChoice, minChoice, colList, listMax, listMin, max_def, min_def,
        List.getD])).2.2.1 0 1 (by norm_num) (by norm_num),
   (spec_C5_amended_breakpoints 2 3 0 [[0, 0], [4, 4]] none (by norm_num) (by norm_num) 4
      (by norm_num)
      (by norm_num [maxChoice, minChoice, colList, listMax, listMin, max_def, min_def,
        List.getD])).2.2.2⟩

/-- C7 counterexample: a diagonal payoff solve that terminates non-optimally
does not abort the run — its read-back value 42 is recorded into the payoff
table and the whole pipeline (secondary payoff column `[7, 9]`, nonzero range
2) still completes successfully. -/
theorem spec_C7_cex_no_abort :
    ((payoffTable 2 pOrcC7).getD 0 []).getD 0 0 = 42 ∧
    (pOrcC7 0 none).optimal = false ∧
    (moopRun ⟨2, 2, none, false, false⟩ pOrcC7 gOrcOpt (mvOf 0 0 0)).isOk = true := by
  have hz : ∀ i, i < 1 →
      (objRanges 2 (payoffTable 2 pOrcC7) none).getD i 0 ≠ 0 := by
    intro i hi
    have hi0 : i = 0 := by omega
    subst hi0
    norm_num [objRanges, maxChoice, minChoice, colList, listMax, listMin, payoffTable,
      payoffDiag, pOrcC7, pyRound, truncQ, List.range_succ, List.getD, max_def, min_def]
  refine ⟨?_, rfl, ?_⟩
  · norm_num [payoffTable, payoffDiag, pOrcC7, pyRound, List.range_succ, List.getD]
  · rw [moopRun_unpruned ⟨2, 2, none, false, false⟩ pOrcC7 gOrcOpt (mvOf 0 0 0) rfl rfl rfl hz]
    rfl

/-- C7 (amended): `create_payoff_table` never inspects a solve's termination
status: the payoff table depends only on the read-back values, so two payoff
oracles with identical values but arbitrary (e.g. non-optimal) statuses yield
the same table, and no error is raised. -/
theorem spec_C7_amended_status_ignored (p : ℕ) (pO pO' : ℕ → Option ℕ → PayResult)
    (hv : ∀ j pin, (pO j pin).value = (pO' j pin).value) :
    payoffTable p pO = payoffTable p pO' := by
  unfold payoffTable payoffDiag
  refine List.map_congr_left (fun i _ => ?_)
  refine List.map_congr_left (fun j _ => ?_)
  simp only [hv]

theorem spec_C7_amended_status_ignored_witness :
    ((pOrcW1 0 none).optimal ≠ (pOrcW2 0 none).optimal) ∧
    payoffTable 2 pOrcW1 = payoffTable 2 pOrcW2 :=
  ⟨by decide, spec_C7_amended_status_ignored 2 pOrcW1 pOrcW2 (fun j pin => rfl)⟩

/-- C8 counterexample: with a constant payoff oracle the secondary objective
range is 0; `find_objfun_range` raises nothing, and the run fails with the
unhandled `ZeroDivisionError` of `convert_opt_prob` — not the eager
configuration error (`nadirMismatch`) the spec describes. -/
theorem spec_C8_cex_division_path :
    (objRanges 2 (payoffTable 2 pOrcConst) none).getD 0 0 = 0 ∧
    moopRun ⟨2, 2, none, false, false⟩ pOrcConst gOrcOpt (mvOf 0 0 0) =
      .error .zeroDivision ∧
    MoopError.zeroDivision ≠ MoopError.nadirMismatch := by
  have h0 : (objRanges 2 (payoffTable 2 pOrcConst) none).getD 0 0 = 0 := by
    norm_num [objRanges, maxChoice, minChoice, colList, listMax, listMin, payoffTable,
      payoffDiag, pOrcConst, pyRound, truncQ, List.range_succ, List.getD, max_def, min_def]
  have hc : convertOptProb 2 (objRanges 2 (payoffTable 2 pOrcConst) none) =
      .error .zeroDivision := by
    have hany : ((List.range (2 - 1)).any fun i =>
        (objRanges 2 (payoffTable 2 pOrcConst) none).getD i 0 == 0) = true :=
      List.any_eq_true.mpr ⟨0, by norm_num, beq_iff_eq.mpr h0⟩
    unfold convertOptProb
    rw [if_pos hany]
  refine ⟨h0, ?_, by decide⟩
  unfold moopRun
  simp only [Option.isSome_none, Bool.false_eq_true, false_and, if_false]
  rw [hc]

/-- C8 (amended): no zero-range check exists in `find_objfun_range`: the only
eagerly detected configuration error is the nadir-length mismatch.  A zero
secondary-objective range passes `find_objfun_range` unchecked, and the run
instead aborts with the unhandled `ZeroDivisionError` raised when
`convert_opt_prob` divides a slack term by the zero `obj_range` entry
(lines 150-153) — after the payoff solves but before any grid-loop solve. -/
theorem spec_C8_amended_zero_range_divides (cfg : MoopConfig)
    (pO : ℕ → Option ℕ → PayResult) (gO : List ℚ → SolveResult) (init : ModelVals)
    (k : ℕ) (hN : cfg.nadir = none) (hk : k < cfg.p - 1)
    (h0 : (objRanges cfg.p (payoffTable cfg.p pO) none).getD k 0 = 0) :
    moopRun cfg pO gO init = .error .zeroDivision := by
  have hc : convertOptProb cfg.p (objRanges cfg.p (payoffTable cfg.p pO) none) =
      .error .zeroDivision := by
    have hany : ((List.range (cfg.p - 1)).any fun i =>
        (objRanges cfg.p (payoffTable cfg.p pO) none).getD i 0 == 0) = true :=
      List.any_eq_true.mpr ⟨k, List.mem_range.mpr hk, beq_iff_eq.mpr h0⟩
    unfold convertOptProb
    rw [if_pos hany]
  unfold moopRun
  rw [hN]
  simp only [Option.isSome_none, Bool.false_eq_true, false_and, if_false]
  rw [hc]

theorem spec_C8_amended_zero_range_divides_witness :
    (objRanges 2 (payoffTable 2 pOrcConst) none).getD 0 0 = 0 ∧
    moopRun ⟨2, 2, none, false, false⟩ pOrcConst gOrcOpt (mvOf 0 0 0) =
      .error .zeroDivision :=
  ⟨by norm_num [objRanges, maxChoice, minChoice, colList, listMax, listMin, payoffTable,
      payoffDiag, pOrcConst, pyRound, truncQ, List.range_succ, List.getD, max_def, min_def],
   spec_C8_amended_zero_range_divides ⟨2, 2, none, false, false⟩ pOrcConst gOrcOpt
     (mvOf 0 0 0) 0 rfl (by norm_num)
     (by norm_num [objRanges, maxChoice, minChoice, colList, listMax, listMin, payoffTable,
       payoffDiag, pOrcConst, pyRound, truncQ, List.range_succ, List.getD, max_def, min_def])⟩

/-- Every tuple recorded by an arbitrarily-pruned exploration is also recorded
by the run that solves every grid index (the first solved index is always the
head of the enumeration, so a stale record can only reproduce either the
initial-values tuple — which the all-solves run records when its first solve
is non-optimal — or the tuple of some optimal grid point). -/
theorem discover_recorded_sub (P : ExpParams) (init : ModelVals) (res : ExpState)
    (h : discoverPareto P init = some res) :
    ∀ t ∈ res.recorded, t ∈ recAux P.p P.ranges P.e P.oracle init (cpList P.p P.g) := by
  unfold discoverPareto at h
  cases hcp : cpList P.p P.g with
  | nil =>
    rw [hcp, runFrom] at h
    injection h with h
    rw [← h]
    intro t ht
    simp [initExpState] at ht
  | cons c0 rest =>
    rw [hcp] at h
    have hOpt : ∀ c ∈ (c0 :: rest), (P.oracle (epsVec P.p P.e c)).optimal = true →
        recTuple P.p P.ranges (P.oracle (epsVec P.p P.e c)).vals
          ∈ recAux P.p P.ranges P.e P.oracle init (c0 :: rest) :=
      fun c hc ho => mem_recAux_of_opt P.p P.ranges P.e P.oracle (c0 :: rest) init c hc ho
    by_cases hopt : (P.oracle (epsVec P.p P.e c0)).optimal = true
    · rw [runFrom_cons] at h
      have hq : bj1 P.g (initExpState init) c0 = 0 := by
        unfold bj1 initExpState
        simp
      rw [expStep_solve _ _ _ (by rw [hq]; exact lt_irrefl 0)] at h
      cases hfa : flagAfter P (initExpState init).flag c0
          (P.oracle (epsVec P.p P.e c0)).optimal
          (updCur P.p P.e P.oracle (initExpState init).cur c0) with
      | none => rw [hfa] at h; simp at h
      | some f' =>
        rw [hfa] at h
        simp only [Option.map_some', Option.some_bind] at h
        have hvals : updCur P.p P.e P.oracle (initExpState init).cur c0
            = (P.oracle (epsVec P.p P.e c0)).vals :=
          updCur_opt P.p P.e P.oracle (initExpState init).cur c0 hopt
        have hmem0 : recTuple P.p P.ranges (P.oracle (epsVec P.p P.e c0)).vals
            ∈ recAux P.p P.ranges P.e P.oracle init (c0 :: rest) :=
          hOpt c0 (List.mem_cons_self _ _) hopt
        refine runFrom_recorded_sub P _ rest
          { flag := f', bypassJump := bj2 P.g f' c0 (bj1 P.g (initExpState init) c0),
            modelsSolved := (initExpState init).modelsSolved + 1,
            cur := updCur P.p P.e P.oracle (initExpState init).cur c0,
            recorded := (initExpState init).recorded
              ++ [recTuple P.p P.ranges (updCur P.p P.e P.oracle (initExpState init).cur c0)],
            trace := (initExpState init).trace ++ [(c0, true)] } res
          (fun c hc ho => hOpt c (List.mem_cons_of_mem _ hc) ho) ?_ ?_ h
        · rw [hvals]
          exact hmem0
        · intro t ht
          simp only [initExpState, List.nil_append, List.mem_singleton] at ht
          rw [ht]
          rw [show updCur P.p P.e P.oracle init c0
              = (P.oracle (epsVec P.p P.e c0)).vals from hvals]
          exact hmem0
    · rw [Bool.not_eq_true] at hopt
      have hcur0 : recTuple P.p P.ranges init
          ∈ recAux P.p P.ranges P.e P.oracle init (c0 :: rest) :=
        recAux_stale_head P.p P.ranges P.e P.oracle c0 rest init hopt
      refine runFrom_recorded_sub P _ (c0 :: rest) (initExpState init) res hOpt hcur0 ?_ h
      intro t ht
      simp [initExpState] at ht

/-- C1 (amended): for a fixed model and configuration and a deterministic
solver, a run with any pruning-flag setting performs at most as many solves as
the run with both flags disabled, and its deduplicated Pareto set is a subset
of the unpruned run's set.  Set equality does not follow from determinism
alone (see the counterexample): it additionally requires the monotonicity /
solution-constancy property of the solver results that the pruning design
assumes. -/
theorem spec_C1_amended_refinement (P : ExpParams) (init : ModelVals)
    (hs : (discoverPareto P init).isSome = true) :
    solvesOf (discoverPareto P init)
      ≤ solvesOf (discoverPareto ⟨P.p, P.g, false, false, P.ranges, P.e, P.oracle⟩ init) ∧
    ∀ t ∈ findUniqueSols (recsOf (discoverPareto P init)),
      t ∈ findUniqueSols (recsOf
        (discoverPareto ⟨P.p, P.g, false, false, P.ranges, P.e, P.oracle⟩ init)) := by
  obtain ⟨res, hres⟩ := Option.isSome_iff_exists.mp hs
  have hres2 := hres
  unfold discoverPareto at hres2
  have hu : discoverPareto ⟨P.p, P.g, false, false, P.ranges, P.e, P.oracle⟩ init
      = some { flag := (initExpState init).flag, bypassJump := 0,
               modelsSolved := (initExpState init).modelsSolved + (cpList P.p P.g).length,
               cur := curAux P.p P.e P.oracle (initExpState init).cur (cpList P.p P.g),
               recorded := (initExpState init).recorded
                 ++ recAux P.p P.ranges P.e P.oracle (initExpState init).cur (cpList P.p P.g),
               trace := (initExpState init).trace
                 ++ (cpList P.p P.g).map (fun c => (c, true)) } :=
    runFrom_noflags ⟨P.p, P.g, false, false, P.ranges, P.e, P.oracle⟩ rfl rfl
      (cpList P.p P.g) (initExpState init) (fun x => rfl) rfl
  constructor
  · rw [hres, hu]
    simp only [solvesOf, Option.map_some', Option.getD_some]
    have hc := runFrom_solved_le P (cpList P.p P.g) (initExpState init) res hres2
    simp only [initExpState] at hc ⊢
    omega
  · intro t ht
    rw [hres] at ht
    rw [hu]
    simp only [findUniqueSols, recsOf, Option.map_some', Option.getD_some,
      List.mem_dedup] at ht ⊢
    have hsub := discover_recorded_sub P init res hres t ht
    simpa [initExpState] using hsub

set_option maxHeartbeats 1000000 in
/-- C1 counterexample: under the deterministic oracle `orcA` (optimal
everywhere, slack 1 on the fastest secondary objective at the first grid
point), the bypass-pruned run skips grid index `[1, 0]` and its deduplicated
Pareto set lacks the tuple `[10, 10, 10]` that the unpruned run records there:
the two sets are not equal, refuting set equality under determinism alone. -/
theorem spec_C1_cex_set_differs :
    (discoverPareto ⟨3, 2, false, true, [1, 1], exE, orcA⟩ (mvOf 99 0 0)).map
        (fun st => findUniqueSols st.recorded)
      = some [[-1 / 100, 0, 0], [20, 20, 20], [30, 30, 30]] ∧
    (discoverPareto ⟨3, 2, false, false, [1, 1], exE, orcA⟩ (mvOf 99 0 0)).map
        (fun st => findUniqueSols st.recorded)
      = some [[-1 / 100, 0, 0], [10, 10, 10], [20, 20, 20], [30, 30, 30]] ∧
    (([10, 10, 10] : List ℚ)
      ∈ ([[-1 / 100, 0, 0], [10, 10, 10], [20, 20, 20], [30, 30, 30]] : List (List ℚ))) ∧
    (([10, 10, 10] : List ℚ)
      ∉ ([[-1 / 100, 0, 0], [20, 20, 20], [30, 30, 30]] : List (List ℚ))) := by
  refine ⟨?_, ?_, by norm_num, by norm_num⟩
  · norm_num [discoverPareto, runFrom, expStep, bj1, bj2, flagAfter, writeFlags, bCoeffs,
      updCur, recTuple, epsVec, cpList, prodTuples, initExpState, findUniqueSols, exE, mvOf,
      orcA, epsW, pyRound, truncQ, List.range_succ, Function.update, List.dedup, List.range']
  · norm_num [discoverPareto, runFrom, expStep, bj1, bj2, flagAfter, writeFlags, bCoeffs,
      updCur, recTuple, epsVec, cpList, prodTuples, initExpState, findUniqueSols, exE, mvOf,
      orcA, epsW, pyRound, truncQ, List.range_succ, Function.update, List.dedup, List.range']

set_option maxHeartbeats 1000000 in
theorem spec_C1_amended_refinement_witness :
    ((discoverPareto ⟨3, 2, false, true, [1, 1], exE, orcA⟩ (mvOf 99 0 0)).isSome = true) ∧
    solvesOf (discoverPareto ⟨3, 2, false, true, [1, 1], exE, orcA⟩ (mvOf 99 0 0))
      ≤ solvesOf (discoverPareto ⟨3, 2, false, false, [1, 1], exE, orcA⟩ (mvOf 99 0 0)) ∧
    ([20, 20, 20] : List ℚ) ∈ findUniqueSols
      (recsOf (discoverPareto ⟨3, 2, false, false, [1, 1], exE, orcA⟩ (mvOf 99 0 0))) :=
  ⟨by norm_num [discoverPareto, runFrom, expStep, bj1, bj2, flagAfter, writeFlags, bCoeffs,
      updCur, recTuple, epsVec, cpList, prodTuples, initExpState, exE, mvOf, orcA, epsW,
      pyRound, truncQ, List.range_succ, Function.update, List.range'],
   (spec_C1_amended_refinement ⟨3, 2, false, true, [1, 1], exE, orcA⟩ (mvOf 99 0 0)
     (by norm_num [discoverPareto, runFrom, expStep, bj1, bj2, flagAfter, writeFlags, bCoeffs,
       updCur, recTuple, epsVec, cpList, prodTuples, initExpState, exE, mvOf, orcA, epsW,
       pyRound, truncQ, List.range_succ, Function.update, List.range'])).1,
   (spec_C1_amended_refinement ⟨3, 2, false, true, [1, 1], exE, orcA⟩ (mvOf 99 0 0)
     (by norm_num [discoverPareto, runFrom, expStep, bj1, bj2, flagAfter, writeFlags, bCoeffs,
       updCur, recTuple, epsVec, cpList, prodTuples, initExpState, exE, mvOf, orcA, epsW,
       pyRound, truncQ, List.range_succ, Function.update, List.range'])).2 [20, 20, 20]
     (by norm_num [discoverPareto, runFrom, expStep, bj1, bj2, flagAfter, writeFlags, bCoeffs,
       updCur, recTuple, epsVec, cpList, prodTuples, initExpState, findUniqueSols, recsOf,
       exE, mvOf, orcA, epsW, pyRound, truncQ, List.range_succ, Function.update, List.dedup,
       List.range'])⟩

theorem writeFlags_eval (c0 : ℕ) (v : ℚ) :
    ∀ (is : List ℕ) (f : List ℕ → ℚ) (x : List ℕ),
      writeFlags f c0 is v x = if ∃ i ∈ is, x = [c0, i] then v else f x := by
  intro is
  induction is with
  | nil =>
    intro f x
    simp [writeFlags]
  | cons a is ih =>
    intro f x
    have hstep : writeFlags f c0 (a :: is) v = writeFlags (Function.update f [c0, a] v) c0 is v := by
      rfl
    rw [hstep, ih]
    by_cases h1 : ∃ i ∈ is, x = [c0, i]
    · rw [if_pos h1, if_pos]
      obtain ⟨i, hi, hx⟩ := h1
      exact ⟨i, List.mem_cons_of_mem _ hi, hx⟩
    · rw [if_neg h1, Function.update_apply]
      by_cases h2 : x = [c0, a]
      · rw [if_pos h2, if_pos ⟨a, List.mem_cons_self _ _, h2⟩]
      · rw [if_neg h2, if_neg]
        rintro ⟨i, hi, hx⟩
        rcases List.mem_cons.mp hi with rfl | hi'
        · exact h2 hx
        · exact h1 ⟨i, hi', hx⟩

theorem pyRound_nonneg (d : ℕ) (x : ℚ) (h : 0 ≤ x) : 0 ≤ pyRound d x := by
  unfold pyRound
  have hf : (0 : ℤ) ≤ ⌊x * 10 ^ d + 1 / 2⌋ := Int.floor_nonneg.mpr (by positivity)
  have hc : (0 : ℚ) ≤ ((⌊x * 10 ^ d + 1 / 2⌋ : ℤ) : ℚ) := by exact_mod_cast hf
  positivity

theorem truncQ_nonneg (x : ℚ) (h : 0 ≤ x) : 0 ≤ truncQ x := by
  unfold truncQ
  rw [if_pos h]
  exact Int.floor_nonneg.mpr h

set_option maxHeartbeats 1600000 in
/-- C3: with `bypass_coefficient` enabled (stated for `p = 3`, the
two-dimensional SkipMap mechanism of lines 198-207/226-229), after a feasible
(optimal) solve at grid index `(c0, c1)` whose fastest-varying secondary
objective has realized slack `s`, the next `floor(s / step_0)` grid indices in
the fastest-varying dimension — clamped to the `g - 1 - c0` remaining indices
of the current slower-dimension prefix (`slackSkips`) — are advanced over
without performing a solve, via the SkipMap entries recorded at `(c0, c1)`. -/
theorem spec_C3_bypass_skips (g : ℕ) (ee : Bool) (ranges : List ℤ) (eG : ℕ → ℕ → ℚ)
    (orc : List ℚ → SolveResult) (st : ExpState) (c0 c1 : ℕ) (rest : List (List ℕ))
    (hg : 2 ≤ g) (hc0 : c0 < g)
    (hbj : st.bypassJump = 0) (hfl : st.flag [c0, c1] = 0)
    (hopt : (orc (epsVec 3 eG [c0, c1])).optimal = true)
    (hs0 : 0 ≤ (orc (epsVec 3 eG [c0, c1])).vals.slacks 0)
    (hs1 : 0 ≤ (orc (epsVec 3 eG [c0, c1])).vals.slacks 1)
    (hr0 : 0 < ranges.getD 0 0) (hr1 : 0 < ranges.getD 1 0)
    (hrest : ∀ c ∈ rest, c.length = 2)
    (hk : slackSkips ⟨3, g, ee, true, ranges, eG, orc⟩
      (orc (epsVec 3 eG [c0, c1])).vals c0 ≤ rest.length) :
    (runFrom ⟨3, g, ee, true, ranges, eG, orc⟩ st ([c0, c1] :: rest)).map
        (fun res => (res.trace.drop st.trace.length).take
          (1 + slackSkips ⟨3, g, ee, true, ranges, eG, orc⟩
            (orc (epsVec 3 eG [c0, c1])).vals c0))
      = some (([c0, c1], true) ::
          (rest.take (slackSkips ⟨3, g, ee, true, ranges, eG, orc⟩
            (orc (epsVec 3 eG [c0, c1])).vals c0)).map (fun c => (c, false))) := by
  have hgq : (0 : ℚ) < (g : ℚ) - 1 := by
    have h2 : (2 : ℚ) ≤ (g : ℚ) := by exact_mod_cast hg
    linarith
  have hstep0 : (0 : ℚ) < ((ranges.getD 0 0 : ℤ) : ℚ) / ((g : ℚ) - 1) := by
    apply div_pos _ hgq
    exact_mod_cast hr0
  have hstep1 : (0 : ℚ) < ((ranges.getD 1 0 : ℤ) : ℚ) / ((g : ℚ) - 1) := by
    apply div_pos _ hgq
    exact_mod_cast hr1
  obtain ⟨B0, hB0⟩ : ∃ z : ℤ, truncQ (pyRound 10 ((orc (epsVec 3 eG [c0, c1])).vals.slacks 0)
      / (((ranges.getD 0 0 : ℤ) : ℚ) / ((g : ℚ) - 1))) = z := ⟨_, rfl⟩
  obtain ⟨B1, hB1⟩ : ∃ z : ℤ, truncQ (pyRound 10 ((orc (epsVec 3 eG [c0, c1])).vals.slacks 1)
      / (((ranges.getD 1 0 : ℤ) : ℚ) / ((g : ℚ) - 1))) = z := ⟨_, rfl⟩
  have hb0n : 0 ≤ B0 := by
    rw [← hB0]
    exact truncQ_nonneg _ (div_nonneg (pyRound_nonneg _ _ hs0) (le_of_lt hstep0))
  have hb1n : 0 ≤ B1 := by
    rw [← hB1]
    exact truncQ_nonneg _ (div_nonneg (pyRound_nonneg _ _ hs1) (le_of_lt hstep1))
  have hkmin : slackSkips ⟨3, g, ee, true, ranges, eG, orc⟩
      (orc (epsVec 3 eG [c0, c1])).vals c0 = min B0.toNat (g - 1 - c0) := by
    rw [← hB0]
    rfl
  rw [hkmin] at hk ⊢
  have hq : bj1 g st [c0, c1] = 0 := by
    unfold bj1
    rw [hbj, if_neg]
    rintro ⟨hcontra, -⟩
    exact hcontra hfl
  rw [runFrom_cons]
  rw [expStep_solve ⟨3, g, ee, true, ranges, eG, orc⟩ st [c0, c1]
    (show ¬ 0 < bj1 (⟨3, g, ee, true, ranges, eG, orc⟩ : ExpParams).g st [c0, c1] from
      by rw [show bj1 (⟨3, g, ee, true, ranges, eG, orc⟩ : ExpParams).g st [c0, c1] = 0
          from hq]
         exact lt_irrefl 0)]
  dsimp only
  rw [hopt, updCur_opt 3 eG orc st.cur [c0, c1] hopt]
  have hfa : flagAfter ⟨3, g, ee, true, ranges, eG, orc⟩ st.flag [c0, c1] true
      (orc (epsVec 3 eG [c0, c1])).vals
      = some (writeFlags st.flag c0 (List.range' c1 (B1 + 1).toNat) ((B0 : ℚ) + 1)) := by
    unfold flagAfter
    rw [if_neg (by simp), if_pos rfl]
    rw [← hB0, ← hB1]
    rfl
  rw [hfa]
  simp only [Option.map_some', Option.some_bind]
  have hflval : writeFlags st.flag c0 (List.range' c1 (B1 + 1).toNat) ((B0 : ℚ) + 1) [c0, c1]
      = (B0 : ℚ) + 1 := by
    rw [writeFlags_eval]
    rw [if_pos]
    exact ⟨c1, by rw [List.mem_range'_1]; omega, rfl⟩
  have hcastA : ((B0.toNat : ℕ) : ℚ) = (B0 : ℚ) := by
    exact_mod_cast Int.toNat_of_nonneg hb0n
  have hcastB : ((g - 1 - c0 : ℕ) : ℚ) = (g : ℚ) - (c0 : ℚ) - 1 := by
    rw [Nat.cast_sub (by omega : c0 ≤ g - 1), Nat.cast_sub (by omega : 1 ≤ g)]
    push_cast
    ring
  have hbj2 : bj2 g (writeFlags st.flag c0 (List.range' c1 (B1 + 1).toNat) ((B0 : ℚ) + 1))
      [c0, c1] (bj1 g st [c0, c1]) = ((min B0.toNat (g - 1 - c0) : ℕ) : ℚ) := by
    rw [hq]
    unfold bj2
    rw [hflval, if_pos]
    · dsimp only [List.headD]
      have e1 : (B0 : ℚ) + 1 - 1 = ((B0.toNat : ℕ) : ℚ) := by
        rw [hcastA]
        ring
      rw [e1, ← hcastB, Nat.cast_min B0.toNat (g - 1 - c0)]
      rcases lt_or_ge ((B0.toNat : ℕ) : ℚ) (((g - 1 - c0 : ℕ) : ℕ) : ℚ) with hlt | hge
      · rw [if_pos hlt, min_eq_left (le_of_lt hlt)]
      · rw [if_neg (not_lt.mpr hge), min_eq_right hge]
    · refine ⟨?_, rfl⟩
      have hgt : (0 : ℚ) < (B0 : ℚ) + 1 := by
        have hge0 : (0 : ℚ) ≤ (B0 : ℚ) := by exact_mod_cast hb0n
        linarith
      exact ne_of_gt hgt
  rw [hbj2]
  rw [skipRun ⟨3, g, ee, true, ranges, eG, orc⟩ (min B0.toNat (g - 1 - c0)) rest _ rfl hk]
  obtain ⟨resf, hresf⟩ := Option.isSome_iff_exists.mp
    (runFrom_isSome ⟨3, g, ee, true, ranges, eG, orc⟩ (Nat.le_refl 3)
      (rest.drop (min B0.toNat (g - 1 - c0))) _
      (fun c hc => le_of_eq (hrest c (List.drop_subset _ _ hc)).symm))
  rw [hresf]
  simp only [Option.map_some']
  obtain ⟨tail, htail⟩ := runFrom_trace_mono _ _ _ _ hresf
  rw [htail]
  dsimp only
  congr 1
  rw [List.append_assoc, List.append_assoc, List.drop_left, List.singleton_append,
    Nat.add_comm 1 (min B0.toNat (g - 1 - c0)), List.take_succ_cons]
  congr 1
  exact List.take_left' (by rw [List.length_map, List.length_take]; exact min_eq_left hk)

set_option maxHeartbeats 1000000 in
theorem spec_C3_bypass_skips_witness :
    (0 : ℚ) ≤ (orcB (epsVec 3 exE [0, 0])).vals.slacks 0 ∧
    (runFrom ⟨3, 3, false, true, [1, 1], exE, orcB⟩ (initExpState (mvOf 0 0 0))
        ([0, 0] :: [[1, 0], [2, 0], [0, 1], [1, 1], [2, 1], [0, 2], [1, 2], [2, 2]])).map
        (fun res => (res.trace.drop (initExpState (mvOf 0 0 0)).trace.length).take
          (1 + slackSkips ⟨3, 3, false, true, [1, 1], exE, orcB⟩
            (orcB (epsVec 3 exE [0, 0])).vals 0))
      = some (([0, 0], true) ::
          (([[1, 0], [2, 0], [0, 1], [1, 1], [2, 1], [0, 2], [1, 2], [2, 2]] :
              List (List ℕ)).take
            (slackSkips ⟨3, 3, false, true, [1, 1], exE, orcB⟩
              (orcB (epsVec 3 exE [0, 0])).vals 0)).map (fun c => (c, false))) :=
  ⟨by norm_num [orcB, epsVec, exE, mvOf, List.range_succ],
   spec_C3_bypass_skips 3 false [1, 1] exE orcB (initExpState (mvOf 0 0 0)) 0 0
    [[1, 0], [2, 0], [0, 1], [1, 1], [2, 1], [0, 2], [1, 2], [2, 2]]
    (by norm_num) (by norm_num) rfl rfl
    (by norm_num [orcB, epsVec, exE, List.range_succ])
    (by norm_num [orcB, epsVec, exE, mvOf, List.range_succ])
    (by norm_num [orcB, epsVec, exE, mvOf, List.range_succ])
    (by norm_num) (by norm_num) (by decide)
    (by norm_num [slackSkips, orcB, epsVec, exE, mvOf, pyRound, truncQ, List.range_succ])⟩
